import Mathlib

/-!
Shallow embedding of the `BigRational` TypeScript class (src/index.ts).

Each method of the class is translated to a Lean definition of the same
name.  The constructor throws when the denominator is zero; every method
that allocates a new instance goes through the constructor, so those
methods are modelled in the `Except` monad.  TypeScript `bigint` is
arbitrary-precision, hence `Int`.  TypeScript `bigint` division (`/`)
truncates toward zero, hence `Int.tdiv`.  The `gcd` of the `big-integer`
package takes absolute values of its arguments and returns a non-negative
result, hence `Int.gcd` (which is `Nat.gcd` of the absolute values), cast
back to `Int`.
-/

/-- The single error kind of the library: the `Error("Denominator can't be
zero")` thrown by the constructor (called `InvalidDenominator` in the
design documents). -/
inductive RationalError where
  | invalidDenominator
deriving DecidableEq, Repr

/-- The `BigRational` class: a stored numerator / denominator pair of
`bigint`s, kept verbatim (no reduction, no sign normalization). -/
structure BigRational where
  numerator : Int
  denominator : Int
deriving DecidableEq, Repr

namespace BigRational

/-- `constructor(numerator, denominator)`: throws when the denominator is
zero, otherwise stores the pair verbatim. -/
def new (numerator denominator : Int) : Except RationalError BigRational :=
  if denominator = 0 then .error .invalidDenominator
  else .ok { numerator := numerator, denominator := denominator }

/-- `getNumerator()`. -/
def getNumerator (r : BigRational) : Int := r.numerator

/-- `getDenominator()`. -/
def getDenominator (r : BigRational) : Int := r.denominator

/-- `toPair()`. -/
def toPair (r : BigRational) : Int × Int := (r.numerator, r.denominator)

/-- The local helper `const abs = (n) => (n >= 0n ? n : -n)` in `abs()`. -/
def absInt (n : Int) : Int := if n ≥ 0 then n else -n

/-- `abs()`: absolute value of numerator and denominator. -/
def abs (r : BigRational) : Except RationalError BigRational :=
  new (absInt r.numerator) (absInt r.denominator)

/-- `negate()`: flips the numerator's sign, keeps the denominator. -/
def negate (r : BigRational) : Except RationalError BigRational :=
  new (-r.numerator) r.denominator

/-- `add(a)`: cross-multiplication over the product of the denominators. -/
def add (r a : BigRational) : Except RationalError BigRational :=
  new (a.numerator * r.denominator + r.numerator * a.denominator)
    (r.denominator * a.denominator)

/-- `subtract(a)`: `this.add(a.negate())`. -/
def subtract (r a : BigRational) : Except RationalError BigRational := do
  let na ← a.negate
  r.add na

/-- `inverse()`: swaps numerator and denominator (the constructor throws
when the original numerator is zero). -/
def inverse (r : BigRational) : Except RationalError BigRational :=
  new r.denominator r.numerator

/-- `mul(a)`: multiplies numerators and denominators. -/
def mul (r a : BigRational) : Except RationalError BigRational :=
  new (a.numerator * r.numerator) (a.denominator * r.denominator)

/-- `div(a)`: `this.mul(a.inverse())`. -/
def div (r a : BigRational) : Except RationalError BigRational := do
  let ia ← a.inverse
  r.mul ia

/-- The `crossMultiplicationNegative` condition of `lte(a)`: the argument's
denominator and the receiver's denominator have strictly opposite signs. -/
def crossMultiplicationNegative (r a : BigRational) : Bool :=
  (a.denominator > 0 && r.denominator < 0) || (a.denominator < 0 && r.denominator > 0)

/-- `lte(a)`: cross-multiplied comparison, direction reversed when exactly
one of the two denominators is negative. -/
def lte (r a : BigRational) : Bool :=
  if r.crossMultiplicationNegative a then
    decide (r.numerator * a.denominator ≥ a.numerator * r.denominator)
  else
    decide (r.numerator * a.denominator ≤ a.numerator * r.denominator)

/-- `lt(a)`: `this.lte(a) && !a.lte(this)`. -/
def lt (r a : BigRational) : Bool := r.lte a && !(a.lte r)

/-- `eq(a)`: `this.lte(a) && a.lte(this)`. -/
def eq (r a : BigRational) : Bool := r.lte a && a.lte r

/-- `gte(a)`: `a.lte(this)`. -/
def gte (r a : BigRational) : Bool := a.lte r

/-- `gt(a)`: `a.lt(this)`. -/
def gt (r a : BigRational) : Bool := a.lt r

/-- The static `gcd(a, b)`: the `big-integer` package's `gcd`, which works
on the absolute values and returns a non-negative result. -/
def gcd (a b : Int) : Int := (Int.gcd a b : Int)

/-- `reduce()`: divides numerator and denominator by their gcd, with
TypeScript's toward-zero `bigint` division. -/
def reduce (r : BigRational) : Except RationalError BigRational :=
  let divisor := gcd r.numerator r.denominator
  new (r.numerator.tdiv divisor) (r.denominator.tdiv divisor)

/-- `isPositive()`: numerator and denominator share a strict sign. -/
def isPositive (r : BigRational) : Bool :=
  (r.numerator > 0 && r.denominator > 0) || (r.numerator < 0 && r.denominator < 0)

/-- `isNegative()`: nonzero numerator and not positive. -/
def isNegative (r : BigRational) : Bool :=
  (r.numerator != 0) && !r.isPositive

/-- A valid instance: one the constructor can actually produce, i.e. with a
nonzero denominator. -/
def Valid (r : BigRational) : Prop := r.denominator ≠ 0

instance (r : BigRational) : Decidable (Valid r) :=
  inferInstanceAs (Decidable (r.denominator ≠ 0))

/-- The mathematical rational number an instance represents. -/
def val (r : BigRational) : ℚ := (r.numerator : ℚ) / (r.denominator : ℚ)

theorem new_ok {n d : Int} (h : d ≠ 0) :
    new n d = .ok { numerator := n, denominator := d } := by
  simp [new, h]

/-- Cross-multiplication characterisation of `≤` on integer fractions with
positive denominators, over `ℚ`. -/
theorem cast_cross_le {n1 d1 n2 d2 : Int} (h1 : 0 < d1) (h2 : 0 < d2) :
    (n1 : ℚ) / d1 ≤ (n2 : ℚ) / d2 ↔ n1 * d2 ≤ n2 * d1 := by
  rw [div_le_div_iff₀ (by exact_mod_cast h1) (by exact_mod_cast h2)]
  constructor <;> intro h <;> exact_mod_cast h

/-- `lte` agrees with the mathematical ordering of the represented
rationals, for any valid operands. -/
theorem lte_eq_true_iff {r a : BigRational} (hr : r.Valid) (ha : a.Valid) :
    r.lte a = true ↔ r.val ≤ a.val := by
  rcases hr.lt_or_lt with hdr | hdr <;> rcases ha.lt_or_lt with hda | hda
  · -- both denominators negative: no reversal
    have hc : r.crossMultiplicationNegative a = false := by
      simp [crossMultiplicationNegative, hdr.not_lt, hda.not_lt]
    have h := @cast_cross_le (-r.numerator) (-r.denominator) (-a.numerator)
      (-a.denominator) (Int.neg_pos.mpr hdr) (Int.neg_pos.mpr hda)
    rw [Int.cast_neg, Int.cast_neg, Int.cast_neg, Int.cast_neg, neg_div_neg_eq,
        neg_div_neg_eq, neg_mul_neg, neg_mul_neg] at h
    simpa [lte, hc, val] using h.symm
  · -- receiver's denominator negative, argument's positive: reversal
    have hc : r.crossMultiplicationNegative a = true := by
      simp [crossMultiplicationNegative, hdr, hda]
    have h := @cast_cross_le (-r.numerator) (-r.denominator) a.numerator
      a.denominator (Int.neg_pos.mpr hdr) hda
    rw [Int.cast_neg, Int.cast_neg, neg_div_neg_eq, neg_mul, mul_neg,
        neg_le_neg_iff] at h
    simpa [lte, hc, val, ge_iff_le] using h.symm
  · -- receiver's denominator positive, argument's negative: reversal
    have hc : r.crossMultiplicationNegative a = true := by
      simp [crossMultiplicationNegative, hdr, hda]
    have h := @cast_cross_le r.numerator r.denominator (-a.numerator)
      (-a.denominator) hdr (Int.neg_pos.mpr hda)
    rw [Int.cast_neg, Int.cast_neg, neg_div_neg_eq, mul_neg, neg_mul,
        neg_le_neg_iff] at h
    simpa [lte, hc, val, ge_iff_le] using h.symm
  · -- both denominators positive: no reversal
    have hc : r.crossMultiplicationNegative a = false := by
      simp [crossMultiplicationNegative, hdr.not_lt, hda.not_lt]
    have h := @cast_cross_le r.numerator r.denominator a.numerator a.denominator hdr hda
    simpa [lte, hc, val] using h.symm

/-- `eq` agrees with mathematical equality of the represented rationals. -/
theorem eq_eq_true_iff {r a : BigRational} (hr : r.Valid) (ha : a.Valid) :
    r.eq a = true ↔ r.val = a.val := by
  rw [eq, Bool.and_eq_true, lte_eq_true_iff hr ha, lte_eq_true_iff ha hr,
      le_antisymm_iff]

/-- `lt` agrees with the strict mathematical ordering. -/
theorem lt_eq_true_iff {r a : BigRational} (hr : r.Valid) (ha : a.Valid) :
    r.lt a = true ↔ r.val < a.val := by
  rw [lt, Bool.and_eq_true, Bool.not_eq_true', Bool.eq_false_iff, ne_eq,
      lte_eq_true_iff hr ha, lte_eq_true_iff ha hr, lt_iff_le_not_le]

/-- `gt` agrees with the reversed strict mathematical ordering. -/
theorem gt_eq_true_iff {r a : BigRational} (hr : r.Valid) (ha : a.Valid) :
    r.gt a = true ↔ a.val < r.val := by
  rw [gt, lt_eq_true_iff ha hr]

theorem add_ok {r a : BigRational} (hr : r.Valid) (ha : a.Valid) :
    r.add a = .ok { numerator := a.numerator * r.denominator + r.numerator * a.denominator,
                    denominator := r.denominator * a.denominator } :=
  new_ok (mul_ne_zero hr ha)

theorem negate_ok {r : BigRational} (hr : r.Valid) :
    r.negate = .ok { numerator := -r.numerator, denominator := r.denominator } :=
  new_ok hr

theorem mul_ok {r a : BigRational} (hr : r.Valid) (ha : a.Valid) :
    r.mul a = .ok { numerator := a.numerator * r.numerator,
                    denominator := a.denominator * r.denominator } :=
  new_ok (mul_ne_zero ha hr)

theorem absInt_nonneg (n : Int) : 0 ≤ absInt n := by
  unfold absInt; split <;> omega

theorem absInt_pos {n : Int} (h : n ≠ 0) : 0 < absInt n := by
  unfold absInt; split <;> omega

theorem abs_ok {r : BigRational} (hr : r.Valid) :
    r.abs = .ok { numerator := absInt r.numerator, denominator := absInt r.denominator } :=
  new_ok (absInt_pos hr).ne'

/-- The gcd computed by `reduce` on a valid instance is strictly positive. -/
theorem gcd_pos {r : BigRational} (hr : r.Valid) :
    0 < gcd r.numerator r.denominator := by
  unfold gcd
  exact_mod_cast Int.gcd_pos_iff.mpr (Or.inr hr)

/-- The denominator produced by `reduce` is nonzero. -/
theorem tdiv_gcd_right_ne_zero {r : BigRational} (hr : r.Valid) :
    r.denominator.tdiv (gcd r.numerator r.denominator) ≠ 0 := by
  set g : Int := gcd r.numerator r.denominator with hgdef
  have hg : 0 < g := gcd_pos hr
  obtain ⟨k, hk⟩ : g ∣ r.denominator := by rw [hgdef]; exact Int.gcd_dvd_right
  rw [hk, Int.mul_tdiv_cancel_left _ hg.ne']
  intro h
  exact hr (by rw [hk, h, mul_zero])

theorem reduce_ok {r : BigRational} (hr : r.Valid) :
    r.reduce = .ok { numerator := r.numerator.tdiv (gcd r.numerator r.denominator),
                     denominator := r.denominator.tdiv (gcd r.numerator r.denominator) } :=
  new_ok (tdiv_gcd_right_ne_zero hr)

/-- Dividing numerator and denominator by their gcd does not change the
represented rational. -/
theorem val_reduce {r : BigRational} (hr : r.Valid) :
    BigRational.val { numerator := r.numerator.tdiv (gcd r.numerator r.denominator),
                      denominator := r.denominator.tdiv (gcd r.numerator r.denominator) }
      = r.val := by
  set g : Int := gcd r.numerator r.denominator with hgdef
  have hg : 0 < g := gcd_pos hr
  have hdvd1 : g ∣ r.numerator := by rw [hgdef]; exact Int.gcd_dvd_left
  have hdvd2 : g ∣ r.denominator := by rw [hgdef]; exact Int.gcd_dvd_right
  obtain ⟨k1, hk1⟩ := hdvd1
  obtain ⟨k2, hk2⟩ := hdvd2
  have hgq : (g : ℚ) ≠ 0 := by exact_mod_cast hg.ne'
  rw [val, val, hk1, hk2, Int.mul_tdiv_cancel_left _ hg.ne',
      Int.mul_tdiv_cancel_left _ hg.ne']
  push_cast
  rw [mul_div_mul_left _ _ hgq]

theorem subtract_ok {r a : BigRational} (hr : r.Valid) (ha : a.Valid) :
    r.subtract a = .ok { numerator := -a.numerator * r.denominator + r.numerator * a.denominator,
                         denominator := r.denominator * a.denominator } := by
  calc r.subtract a = a.negate >>= fun na => r.add na := rfl
    _ = r.add { numerator := -a.numerator, denominator := a.denominator } := by
          rw [negate_ok ha]; rfl
    _ = _ := add_ok hr (show Valid { numerator := -a.numerator, denominator := a.denominator } from ha)

theorem div_ok {r a : BigRational} (hr : r.Valid) (hn : a.numerator ≠ 0) :
    r.div a = .ok { numerator := a.denominator * r.numerator,
                    denominator := a.numerator * r.denominator } := by
  calc r.div a = a.inverse >>= fun ia => r.mul ia := rfl
    _ = r.mul { numerator := a.denominator, denominator := a.numerator } := by
          rw [show a.inverse = .ok { numerator := a.denominator, denominator := a.numerator } from new_ok hn]
          rfl
    _ = _ := mul_ok hr (show Valid { numerator := a.denominator, denominator := a.numerator } from hn)

theorem div_error_of_num_zero {r a : BigRational} (hn : a.numerator = 0) :
    r.div a = .error .invalidDenominator := by
  calc r.div a = a.inverse >>= fun ia => r.mul ia := rfl
    _ = .error .invalidDenominator := by rw [inverse, new, if_pos hn]; rfl

/-- Dividing a multiple of a positive integer by it keeps the sign. -/
theorem sign_tdiv_of_dvd {g n : Int} (hg : 0 < g) (h : g ∣ n) :
    (n.tdiv g).sign = n.sign := by
  obtain ⟨k, hk⟩ := h
  rw [hk, Int.mul_tdiv_cancel_left _ hg.ne', Int.sign_mul,
      Int.sign_eq_one_iff_pos.mpr hg, one_mul]

/-- After one `reduce`, numerator and denominator are coprime. -/
theorem gcd_reduce_eq_one {r : BigRational} (hr : r.Valid) :
    gcd (r.numerator.tdiv (gcd r.numerator r.denominator))
      (r.denominator.tdiv (gcd r.numerator r.denominator)) = 1 := by
  have hgnat : 0 < Int.gcd r.numerator r.denominator :=
    Int.gcd_pos_iff.mpr (Or.inr hr)
  simp only [gcd]
  rw [Int.tdiv_eq_ediv_of_dvd Int.gcd_dvd_left,
      Int.tdiv_eq_ediv_of_dvd Int.gcd_dvd_right,
      Int.gcd_div_gcd_div_gcd hgnat]
  rfl

/-- `reduce` is the identity on instances whose numerator and denominator
are already coprime. -/
theorem reduce_of_gcd_one {s : BigRational} (hs : s.Valid)
    (h1 : gcd s.numerator s.denominator = 1) : s.reduce = .ok s := by
  show new (s.numerator.tdiv (gcd s.numerator s.denominator))
    (s.denominator.tdiv (gcd s.numerator s.denominator)) = .ok s
  rw [h1, Int.tdiv_one, Int.tdiv_one]
  exact new_ok hs

/-- C1: `lte` reverses the direction of the cross-multiplied comparison
exactly when exactly one of the two denominators is negative, and its
result agrees with the mathematical ordering of the represented rationals
`a.numerator/a.denominator ≤ b.numerator/b.denominator`, for any valid
operands, reduced or not, sign-normalized or not. -/
theorem C1_lte_sign_correct (a b : BigRational) (ha : a.Valid) (hb : b.Valid) :
    (a.crossMultiplicationNegative b = true ↔
      Xor' (a.denominator < 0) (b.denominator < 0)) ∧
    (a.lte b = true ↔ a.val ≤ b.val) := by
  constructor
  · rcases ha.lt_or_lt with h1 | h1 <;> rcases hb.lt_or_lt with h2 | h2 <;>
      simp [crossMultiplicationNegative, Xor', h1, h2, h1.not_lt, h2.not_lt]
  · exact lte_eq_true_iff ha hb

/-- Witness for C1 at a = 1/2, b = 3/(-4) (one negative denominator). -/
theorem C1_lte_sign_correct_witness :
    BigRational.Valid { numerator := 1, denominator := 2 } ∧
    BigRational.Valid { numerator := 3, denominator := -4 } ∧
    ((BigRational.crossMultiplicationNegative { numerator := 1, denominator := 2 }
        { numerator := 3, denominator := -4 } = true ↔
      Xor' ((2 : Int) < 0) ((-4 : Int) < 0)) ∧
      (BigRational.lte { numerator := 1, denominator := 2 }
        { numerator := 3, denominator := -4 } = true ↔
      BigRational.val { numerator := 1, denominator := 2 } ≤
        BigRational.val { numerator := 3, denominator := -4 })) :=
  ⟨by decide, by decide,
    C1_lte_sign_correct { numerator := 1, denominator := 2 }
      { numerator := 3, denominator := -4 } (by decide) (by decide)⟩

/-- C2: construction fails with `InvalidDenominator` exactly when the
denominator is zero; with any nonzero denominator it succeeds storing the
arguments verbatim, and `getNumerator` / `getDenominator` report exactly
the stored pair. -/
theorem C2_construction (n d : Int) :
    (new n d = .error .invalidDenominator ↔ d = 0) ∧
    (new n d = .ok { numerator := n, denominator := d } ↔ d ≠ 0) ∧
    getNumerator { numerator := n, denominator := d } = n ∧
    getDenominator { numerator := n, denominator := d } = d := by
  refine ⟨?_, ?_, rfl, rfl⟩
  · by_cases hd : d = 0 <;> simp [new, hd]
  · by_cases hd : d = 0 <;> simp [new, hd]

/-- C3: `inverse` fails with `InvalidDenominator` exactly when the
numerator is zero, and otherwise returns the instance with numerator and
denominator swapped; `div` fails with the same error kind exactly when the
divisor's numerator is zero; that error kind is the one raised by
construction with a zero denominator; and `(5,2).div((0,5))` fails with
it. -/
theorem C3_invalid_denominator (a b : BigRational) (ha : a.Valid) (_hb : b.Valid) :
    (a.inverse = .error .invalidDenominator ↔ a.numerator = 0) ∧
    (a.numerator ≠ 0 →
      a.inverse = .ok { numerator := a.denominator, denominator := a.numerator }) ∧
    (a.div b = .error .invalidDenominator ↔ b.numerator = 0) ∧
    new 1 0 = .error .invalidDenominator ∧
    BigRational.div { numerator := 5, denominator := 2 }
      { numerator := 0, denominator := 5 } = .error .invalidDenominator := by
  refine ⟨?_, ?_, ?_, rfl, rfl⟩
  · by_cases h : a.numerator = 0
    · simp [inverse, new, h]
    · simp only [inverse]
      rw [new_ok h]
      simp [h]
  · intro h
    show new a.denominator a.numerator = _
    exact new_ok h
  · by_cases h : b.numerator = 0
    · simp [div_error_of_num_zero h, h]
    · rw [div_ok ha h]
      simp [h]

/-- Witness for C3 at a = 5/2, b = 0/5. -/
theorem C3_invalid_denominator_witness :
    BigRational.Valid { numerator := 5, denominator := 2 } ∧
    BigRational.Valid { numerator := 0, denominator := 5 } ∧
    ((BigRational.inverse { numerator := 5, denominator := 2 } =
        .error .invalidDenominator ↔ (5 : Int) = 0) ∧
      ((5 : Int) ≠ 0 →
        BigRational.inverse { numerator := 5, denominator := 2 } =
          .ok { numerator := 2, denominator := 5 }) ∧
      (BigRational.div { numerator := 5, denominator := 2 }
          { numerator := 0, denominator := 5 } =
        .error .invalidDenominator ↔ (0 : Int) = 0) ∧
      new 1 0 = .error .invalidDenominator ∧
      BigRational.div { numerator := 5, denominator := 2 }
        { numerator := 0, denominator := 5 } = .error .invalidDenominator) :=
  ⟨by decide, by decide,
    C3_invalid_denominator { numerator := 5, denominator := 2 }
      { numerator := 0, denominator := 5 } (by decide) (by decide)⟩

/-- C4: `reduce` never fails on a valid instance and its result is
`eq`-equal to the original; `reduce` of (10, 20) is (1, 2). -/
theorem C4_reduce_eq (r : BigRational) (hr : r.Valid) :
    (∃ s, r.reduce = .ok s ∧ s.eq r = true) ∧
    BigRational.reduce { numerator := 10, denominator := 20 } =
      .ok { numerator := 1, denominator := 2 } := by
  refine ⟨⟨_, reduce_ok hr, ?_⟩, rfl⟩
  rw [eq_eq_true_iff
    (show Valid { numerator := r.numerator.tdiv (gcd r.numerator r.denominator),
                  denominator := r.denominator.tdiv (gcd r.numerator r.denominator) } from
      tdiv_gcd_right_ne_zero hr) hr]
  exact val_reduce hr

/-- Witness for C4 at r = 10/20. -/
theorem C4_reduce_eq_witness :
    BigRational.Valid { numerator := 10, denominator := 20 } ∧
    ((∃ s, BigRational.reduce { numerator := 10, denominator := 20 } = .ok s ∧
        s.eq { numerator := 10, denominator := 20 } = true) ∧
      BigRational.reduce { numerator := 10, denominator := 20 } =
        .ok { numerator := 1, denominator := 2 }) :=
  ⟨by decide, C4_reduce_eq { numerator := 10, denominator := 20 } (by decide)⟩

/-- C5: on valid instances, `add`, `subtract`, `mul`, `abs`, `negate` and
`reduce` always return a value, never the constructor's zero-denominator
error (the comparisons `lte`/`lt`/`eq`/`gte`/`gt` and the predicates are
`Bool`-valued functions that never construct an instance at all, hence
total by definition). -/
theorem C5_totality (a b : BigRational) (ha : a.Valid) (hb : b.Valid) :
    (a.add b).isOk = true ∧ (a.subtract b).isOk = true ∧ (a.mul b).isOk = true ∧
    a.abs.isOk = true ∧ a.negate.isOk = true ∧ a.reduce.isOk = true := by
  rw [add_ok ha hb, subtract_ok ha hb, mul_ok ha hb, abs_ok ha, negate_ok ha,
      reduce_ok ha]
  exact ⟨rfl, rfl, rfl, rfl, rfl, rfl⟩

/-- Witness for C5 at a = 5/2, b = 3/(-4). -/
theorem C5_totality_witness :
    BigRational.Valid { numerator := 5, denominator := 2 } ∧
    BigRational.Valid { numerator := 3, denominator := -4 } ∧
    ((BigRational.add { numerator := 5, denominator := 2 }
        { numerator := 3, denominator := -4 }).isOk = true ∧
      (BigRational.subtract { numerator := 5, denominator := 2 }
        { numerator := 3, denominator := -4 }).isOk = true ∧
      (BigRational.mul { numerator := 5, denominator := 2 }
        { numerator := 3, denominator := -4 }).isOk = true ∧
      (BigRational.abs { numerator := 5, denominator := 2 }).isOk = true ∧
      (BigRational.negate { numerator := 5, denominator := 2 }).isOk = true ∧
      (BigRational.reduce { numerator := 5, denominator := 2 }).isOk = true) :=
  ⟨by decide, by decide,
    C5_totality { numerator := 5, denominator := 2 }
      { numerator := 3, denominator := -4 } (by decide) (by decide)⟩

/-- C6: `add` returns the unreduced cross-multiplied pair, and
`(5,2).add((3,4))` is exactly (26, 8). -/
theorem C6_add_formula (a b : BigRational) (ha : a.Valid) (hb : b.Valid) :
    a.add b = .ok { numerator := b.numerator * a.denominator + a.numerator * b.denominator,
                    denominator := a.denominator * b.denominator } ∧
    BigRational.add { numerator := 5, denominator := 2 }
      { numerator := 3, denominator := 4 } =
      .ok { numerator := 26, denominator := 8 } :=
  ⟨add_ok ha hb, rfl⟩

/-- Witness for C6 at a = 5/2, b = 3/4. -/
theorem C6_add_formula_witness :
    BigRational.Valid { numerator := 5, denominator := 2 } ∧
    BigRational.Valid { numerator := 3, denominator := 4 } ∧
    (BigRational.add { numerator := 5, denominator := 2 }
        { numerator := 3, denominator := 4 } =
      .ok { numerator := 3 * 2 + 5 * 4, denominator := 2 * 4 } ∧
      BigRational.add { numerator := 5, denominator := 2 }
        { numerator := 3, denominator := 4 } =
      .ok { numerator := 26, denominator := 8 }) :=
  ⟨by decide, by decide,
    C6_add_formula { numerator := 5, denominator := 2 }
      { numerator := 3, denominator := 4 } (by decide) (by decide)⟩

/-- C7: on valid instances exactly one of `lt`, `eq`, `gt` holds, the
ordering depends only on the represented rational (so denominator signs
cannot affect it), and (1, 2) compares `eq` to (-1, -2). -/
theorem C7_trichotomy (a b : BigRational) (ha : a.Valid) (hb : b.Valid) :
    ((a.lt b).toNat + (a.eq b).toNat + (a.gt b).toNat = 1) ∧
    (a.lt b = true ↔ a.val < b.val) ∧
    BigRational.eq { numerator := 1, denominator := 2 }
      { numerator := -1, denominator := -2 } = true := by
  refine ⟨?_, lt_eq_true_iff ha hb, by decide⟩
  rcases lt_trichotomy a.val b.val with h | h | h
  · have h1 : a.lt b = true := (lt_eq_true_iff ha hb).mpr h
    have h2 : a.eq b = false :=
      Bool.eq_false_iff.mpr fun hc => h.ne ((eq_eq_true_iff ha hb).mp hc)
    have h3 : a.gt b = false :=
      Bool.eq_false_iff.mpr fun hc => h.asymm ((gt_eq_true_iff ha hb).mp hc)
    rw [h1, h2, h3]
    rfl
  · have h1 : a.lt b = false :=
      Bool.eq_false_iff.mpr fun hc => (not_lt_of_le h.ge) ((lt_eq_true_iff ha hb).mp hc)
    have h2 : a.eq b = true := (eq_eq_true_iff ha hb).mpr h
    have h3 : a.gt b = false :=
      Bool.eq_false_iff.mpr fun hc => (not_lt_of_le h.le) ((gt_eq_true_iff ha hb).mp hc)
    rw [h1, h2, h3]
    rfl
  · have h1 : a.lt b = false :=
      Bool.eq_false_iff.mpr fun hc => h.asymm ((lt_eq_true_iff ha hb).mp hc)
    have h2 : a.eq b = false :=
      Bool.eq_false_iff.mpr fun hc => h.ne' ((eq_eq_true_iff ha hb).mp hc)
    have h3 : a.gt b = true := (gt_eq_true_iff ha hb).mpr h
    rw [h1, h2, h3]
    rfl

/-- Witness for C7 at a = 5/2, b = 10/4. -/
theorem C7_trichotomy_witness :
    BigRational.Valid { numerator := 5, denominator := 2 } ∧
    BigRational.Valid { numerator := 10, denominator := 4 } ∧
    (((BigRational.lt { numerator := 5, denominator := 2 }
          { numerator := 10, denominator := 4 }).toNat +
        (BigRational.eq { numerator := 5, denominator := 2 }
          { numerator := 10, denominator := 4 }).toNat +
        (BigRational.gt { numerator := 5, denominator := 2 }
          { numerator := 10, denominator := 4 }).toNat = 1) ∧
      (BigRational.lt { numerator := 5, denominator := 2 }
          { numerator := 10, denominator := 4 } = true ↔
        BigRational.val { numerator := 5, denominator := 2 } <
          BigRational.val { numerator := 10, denominator := 4 }) ∧
      BigRational.eq { numerator := 1, denominator := 2 }
        { numerator := -1, denominator := -2 } = true) :=
  ⟨by decide, by decide,
    C7_trichotomy { numerator := 5, denominator := 2 }
      { numerator := 10, denominator := 4 } (by decide) (by decide)⟩

/-- C8: whenever the divisor's numerator is nonzero, `a.div(b).mul(b)` is
`eq`-equal to `a`. -/
theorem C8_div_mul_cancel (a b : BigRational) (ha : a.Valid) (hb : b.Valid)
    (hn : b.numerator ≠ 0) :
    ∃ q p, a.div b = .ok q ∧ q.mul b = .ok p ∧ p.eq a = true := by
  refine ⟨_, _, div_ok ha hn,
    mul_ok (show Valid { numerator := b.denominator * a.numerator,
                         denominator := b.numerator * a.denominator } from
      mul_ne_zero hn ha) hb, ?_⟩
  rw [eq_eq_true_iff
    (show Valid { numerator := b.numerator * (b.denominator * a.numerator),
                  denominator := b.denominator * (b.numerator * a.denominator) } from
      mul_ne_zero hb (mul_ne_zero hn ha)) ha]
  have h1 : (b.numerator : ℚ) ≠ 0 := Int.cast_ne_zero.mpr hn
  have h2 : (b.denominator : ℚ) ≠ 0 := Int.cast_ne_zero.mpr hb
  have h3 : (a.denominator : ℚ) ≠ 0 := Int.cast_ne_zero.mpr ha
  unfold val
  push_cast
  field_simp
  ring

/-- Witness for C8 at a = 5/2, b = 3/(-4). -/
theorem C8_div_mul_cancel_witness :
    BigRational.Valid { numerator := 5, denominator := 2 } ∧
    BigRational.Valid { numerator := 3, denominator := -4 } ∧
    (3 : Int) ≠ 0 ∧
    (∃ q p, BigRational.div { numerator := 5, denominator := 2 }
        { numerator := 3, denominator := -4 } = .ok q ∧
      q.mul { numerator := 3, denominator := -4 } = .ok p ∧
      p.eq { numerator := 5, denominator := 2 } = true) :=
  ⟨by decide, by decide, by decide,
    C8_div_mul_cancel { numerator := 5, denominator := 2 }
      { numerator := 3, denominator := -4 } (by decide) (by decide) (by decide)⟩

theorem absInt_eq_zero_iff {n : Int} : absInt n = 0 ↔ n = 0 := by
  unfold absInt; split <;> omega

/-- C9: the divisor used by `reduce` is strictly positive, so `reduce`
preserves the signs of numerator and denominator ((-10, -20) reduces to
(-1, -2), not (1, 2)) and is idempotent on the stored representation. -/
theorem C9_reduce_sign_idempotent (r : BigRational) (hr : r.Valid) :
    0 < gcd r.numerator r.denominator ∧
    (∃ s, r.reduce = .ok s ∧ s.numerator.sign = r.numerator.sign ∧
      s.denominator.sign = r.denominator.sign ∧ s.reduce = .ok s) ∧
    BigRational.reduce { numerator := -10, denominator := -20 } =
      .ok { numerator := -1, denominator := -2 } := by
  refine ⟨gcd_pos hr, ⟨_, reduce_ok hr, ?_, ?_, ?_⟩, rfl⟩
  · exact sign_tdiv_of_dvd (gcd_pos hr) Int.gcd_dvd_left
  · exact sign_tdiv_of_dvd (gcd_pos hr) Int.gcd_dvd_right
  · exact reduce_of_gcd_one
      (show Valid { numerator := r.numerator.tdiv (gcd r.numerator r.denominator),
                    denominator := r.denominator.tdiv (gcd r.numerator r.denominator) } from
        tdiv_gcd_right_ne_zero hr)
      (gcd_reduce_eq_one hr)

/-- Witness for C9 at r = (-10, -20). -/
theorem C9_reduce_sign_idempotent_witness :
    BigRational.Valid { numerator := -10, denominator := -20 } ∧
    (0 < gcd (-10 : Int) (-20 : Int) ∧
      (∃ s, BigRational.reduce { numerator := -10, denominator := -20 } = .ok s ∧
        s.numerator.sign = (-10 : Int).sign ∧
        s.denominator.sign = (-20 : Int).sign ∧ s.reduce = .ok s) ∧
      BigRational.reduce { numerator := -10, denominator := -20 } =
        .ok { numerator := -1, denominator := -2 }) :=
  ⟨by decide,
    C9_reduce_sign_idempotent { numerator := -10, denominator := -20 } (by decide)⟩

/-- C10: `abs` of a valid instance has a non-negative numerator and a
strictly positive denominator, is never `isNegative`, and is `isPositive`
exactly when the original numerator is nonzero. -/
theorem C10_abs_sign (r : BigRational) (hr : r.Valid) :
    ∃ s, r.abs = .ok s ∧ 0 ≤ s.numerator ∧ 0 < s.denominator ∧
      s.isNegative = false ∧ (s.isPositive = true ↔ r.numerator ≠ 0) := by
  refine ⟨_, abs_ok hr, absInt_nonneg r.numerator, absInt_pos hr, ?_, ?_⟩
  · by_cases h : r.numerator = 0
    · simp [isNegative, h, absInt]
    · simp [isNegative, isPositive, absInt_pos h, absInt_pos hr]
  · constructor
    · intro hp h0
      rw [h0] at hp
      simp [isPositive, absInt] at hp
    · intro h0
      simp [isPositive, absInt_pos h0, absInt_pos hr]

/-- Witness for C10 at r = (-5, -2). -/
theorem C10_abs_sign_witness :
    BigRational.Valid { numerator := -5, denominator := -2 } ∧
    (∃ s, BigRational.abs { numerator := -5, denominator := -2 } = .ok s ∧
      0 ≤ s.numerator ∧ 0 < s.denominator ∧
      s.isNegative = false ∧ (s.isPositive = true ↔ (-5 : Int) ≠ 0)) :=
  ⟨by decide, C10_abs_sign { numerator := -5, denominator := -2 } (by decide)⟩

end BigRational
